import Mathlib

/-!
Shallow embedding of `src/ulmfit/train_clas.py` (function `new_train_clas`)
from the ulmfit-multilingual repository, together with proofs of the
specification claims about it.

The script is modelled as a pure function from the command-line arguments and
an abstract world (filesystem contents, dataset contents, cached file
contents) to a trace of the externally visible actions it performs, plus an
optional error (a failed `assert` or a file-not-found raised by `np.load`,
`pickle.load` or `load_encoder`).
-/

namespace UlmfitTrainClas

/-- Modelled from the spec: the reserved unknown-token string `UNK` imported
from `fastai_contrib.utils`, which is not part of the given sources.  Only its
distinctness from `PAD` matters below. -/
def UNK : String := "_unk_"

/-- Modelled from the spec: the reserved padding-token string `PAD` imported
from `fastai_contrib.utils`. -/
def PAD : String := "_pad_"

/-- Modelled from the spec: `PAD_TOKEN_ID` from `fastai_contrib.utils`; the
spec reserves id 1 for the padding token. -/
def PAD_TOKEN_ID : Nat := 1

/-- Modelled from the spec: `DATASETS` from `fastai_contrib.utils`; the
docstring says only IMDb and XNLI are implemented. -/
def DATASETS : List String := ["imdb", "xnli"]

/-- Modelled from the spec: the training-split key `TRN` from
`fastai_contrib.utils`; only its distinctness from `VAL`/`TST` matters. -/
def TRN : String := "train"

/-- Modelled from the spec: the validation-split key `VAL` from
`fastai_contrib.utils`. -/
def VAL : String := "val"

/-- Modelled from the spec: the test-split key `TST` from
`fastai_contrib.utils`. -/
def TST : String := "test"

/-- Helper for `uniqKeys`: keeps the first occurrence of every word, skipping
words already seen.  This models the key set of a Python `Counter`, whose
iteration order is first-insertion order. -/
def uniqAux (seen : List String) : List String → List String
  | [] => []
  | w :: ws => if w ∈ seen then uniqAux seen ws else w :: uniqAux (w :: seen) ws

/-- The distinct words of a list, in first-occurrence order: the keys of
`Counter(words)` in `train_clas.py` line 71. -/
def uniqKeys (l : List String) : List String := uniqAux [] l

/-- Insert a word into a list sorted by descending count, before the first
element whose count is at most its own.  Together with `sortByCount` this is a
stable descending sort, matching the tie behaviour of
`Counter.most_common` (descending counts, ties in first-insertion order). -/
def insWord (cnt : String → Nat) (w : String) : List String → List String
  | [] => [w]
  | x :: xs => if cnt x ≤ cnt w then w :: x :: xs else x :: insWord cnt w xs

/-- Stable insertion sort by descending count. -/
def sortByCount (cnt : String → Nat) : List String → List String
  | [] => []
  | x :: xs => insWord cnt x (sortByCount cnt xs)

/-- `Counter(words).most_common(n)`: the `n` distinct words of `words` with
the highest occurrence counts, in descending count order, ties in
first-occurrence order (`train_clas.py` line 72). -/
def mostCommon (words : List String) (n : Nat) : List String :=
  (sortByCount (fun t => words.count t) (uniqKeys words)).take n

/-- The vocabulary token list built at `train_clas.py` lines 71-74: the most
common training words, with `PAD` then `UNK` inserted at position 0, so that
`UNK` ends at index 0 and `PAD` at index 1. -/
def buildItos (exs : List (List String)) (n : Nat) : List String :=
  UNK :: PAD :: mostCommon exs.flatten n

/-- Helper for `numericalize`: index of the first occurrence of `w`, counting
from `i`; `0` when absent. -/
def stoiAux (w : String) : Nat → List String → Nat
  | _, [] => 0
  | i, x :: xs => if x = w then i else stoiAux w (i + 1) xs

/-- Models `stoi.get(w, stoi[UNK])` at `train_clas.py` line 82, where `stoi`
is the fastai `Vocab` string-to-id mapping (the inverse of `itos`): the id of
`w` when it is in the vocabulary, and the id of `UNK` (which is 0, since
`UNK` heads `itos`) otherwise. -/
def numericalize (itos : List String) (w : String) : Nat := stoiAux w 0 itos

/-- Encode every example of a split as token ids (`train_clas.py`
lines 82-83). -/
def encodeSplit (itos : List String) (exs : List (List String)) : List (List Nat) :=
  exs.map (fun ex => ex.map (numericalize itos))

/-- The arguments of `new_train_clas`.  Paths are lists of components; `bs`,
`bptt` and `cuda_id` are carried for completeness but do not influence the
modelled observable behaviour. -/
structure Args where
  data_dir : List String
  lang : String
  cuda_id : Int
  pretrain_name : String
  model_dir : List String
  qrnn : Bool
  fine_tune : Bool
  max_vocab : Nat
  bs : Nat
  bptt : Nat
  name : String
  dataset : String
deriving DecidableEq

/-- A value per data split (train / validation / test). -/
structure SplitData (α : Type) where
  trn : α
  val : α
  tst : α
deriving DecidableEq

/-- The abstract world a run starts in: which filesystem paths exist, what
`read_clas_data` would return (tokens and labels per split), and the contents
of the cached id/label files and of the pickled vocabulary, should they be
loaded. -/
structure World where
  fs : List (List String)
  toks : SplitData (List (List String))
  lbls : SplitData (List Int)
  cIds : SplitData (List (List Nat))
  cLbls : SplitData (List Int)
  cItos : List String
deriving DecidableEq

/-- `Path(data_dir).name`: the last path component. -/
def dirName (p : List String) : String := p.getLastD ""

/-- `dataset_dir = data_dir / dataset` (`train_clas.py` line 52). -/
def datasetDir (a : Args) : List String := a.data_dir ++ [a.dataset]

/-- `tmp_dir = dataset_dir / 'tmp'` (`train_clas.py` line 62). -/
def tmpDir (a : Args) : List String := datasetDir a ++ ["tmp"]

/-- `vocab_file = tmp_dir / f'vocab_{lang}.pkl'` (`train_clas.py` line 64). -/
def vocabFile (a : Args) : List String := tmpDir a ++ ["vocab_" ++ a.lang ++ ".pkl"]

/-- `tmp_dir / f'{split}_{lang}_ids.npy'` (`train_clas.py` lines 66, 84, 90). -/
def idsFile (a : Args) (split : String) : List String :=
  tmpDir a ++ [split ++ "_" ++ a.lang ++ "_ids.npy"]

/-- `tmp_dir / f'{split}_{lang}_lbl.npy'` (`train_clas.py` lines 85, 91). -/
def lblFile (a : Args) (split : String) : List String :=
  tmpDir a ++ [split ++ "_" ++ a.lang ++ "_lbl.npy"]

/-- The path of the encoder saved by `learn.save_encoder('enc')` and read by
`learn.load_encoder('enc')`: the file named `enc` in the model directory
(`train_clas.py` lines 122, 128). -/
def encPath (a : Args) : List String := a.model_dir ++ ["enc"]

/-- The path of the classifier weights saved by
`learn.save(f'{model_name}_{name}')` (`train_clas.py` lines 60, 138). -/
def weightsPath (a : Args) : List String :=
  a.model_dir ++ [(if a.qrnn then "qrnn" else "lstm") ++ "_" ++ a.name]

/-- The externally visible actions of the script, in program order.  Write
actions carry their target path (and the written content where a claim needs
it); framework training calls are recorded with their scheduling
arguments. -/
inductive Event where
  | mkdirTmp (path : List String)
  | readData
  | pickleDump (path : List String) (itos : List String)
  | saveNpyIds (path : List String) (content : List (List Nat))
  | saveNpyLbls (path : List String) (content : List Int)
  | loadNpyIds (path : List String)
  | loadNpyLbls (path : List String)
  | pickleLoad (path : List String)
  | mkLMBunch (itos : List String) (trn : List (List Nat)) (val : List (List Nat))
  | mkClasBunch (itos : List String) (trn : List (List Nat)) (val : List (List Nat))
      (trnL : List Int) (valL : List Int)
  | mkLMLearner
  | unfreeze
  | fit (epochs : Nat)
  | saveEncoder (path : List String)
  | mkClasLearner
  | loadEncoder (path : List String)
  | fitOneCycle (cycles : Nat)
  | freezeTo (k : Int)
  | saveWeights (path : List String)
deriving DecidableEq

/-- The data the preprocessing part of the script hands to the training part:
the vocabulary, the per-split ids and labels, and the filesystem as left
after the preprocessing writes. -/
structure PrepData where
  itos : List String
  ids : SplitData (List (List Nat))
  lbls : SplitData (List Int)
  fs : List (List String)
deriving DecidableEq

/-- The result of a run: the trace of performed actions and `none` on normal
completion or `some msg` when the run aborted. -/
structure RunResult where
  trace : List Event
  err : Option String
deriving DecidableEq

/-- The input-validity assertions of `train_clas.py` lines 45-56, in program
order; `none` when every assertion passes, otherwise the message of the first
failing one. -/
def validate (a : Args) (w : World) : Option String :=
  if a.dataset ∉ DATASETS then
    some ("Error: " ++ a.dataset ++ " processing is not implemented.")
  else if ¬ ((a.dataset = "imdb" ∧ a.lang = "en") ∨ ¬ a.dataset = "imdb") then
    some "Error: IMDb is only available in English."
  else if ¬ dirName a.data_dir = "data" then
    some ("Error: Name of data directory should be data, not " ++ dirName a.data_dir ++ ".")
  else if a.data_dir ∉ w.fs then
    some "Error: data_dir does not exist."
  else if datasetDir a ∉ w.fs then
    some "Error: dataset_dir does not exist."
  else if a.model_dir ∉ w.fs then
    some "Error: model_dir does not exist."
  else
    none

/-- The cached files read by the load branch (`train_clas.py` lines 88-93),
paired with the trace action of reading each, in program order: ids then
labels for each split, then the pickled vocabulary. -/
def loadList (a : Args) : List (Event × List String) :=
  [(.loadNpyIds (idsFile a TRN), idsFile a TRN),
   (.loadNpyLbls (lblFile a TRN), lblFile a TRN),
   (.loadNpyIds (idsFile a VAL), idsFile a VAL),
   (.loadNpyLbls (lblFile a VAL), lblFile a VAL),
   (.loadNpyIds (idsFile a TST), idsFile a TST),
   (.loadNpyLbls (lblFile a TST), lblFile a TST),
   (.pickleLoad (vocabFile a), vocabFile a)]

/-- Attempt a sequence of file reads: each read is attempted in order and
raises (flag `false`, stopping the run) when its path does not exist, as
`np.load` / `pickle.load` do. -/
def attemptLoads (fs : List (List String)) : List (Event × List String) → List Event × Bool
  | [] => ([], true)
  | (e, p) :: rest =>
    if p ∈ fs then (e :: (attemptLoads fs rest).1, (attemptLoads fs rest).2)
    else ([e], false)

/-- The load branch of `train_clas.py` lines 86-93: read the six cached
arrays and the pickled vocabulary; on success the prepared data is the cached
contents. -/
def loadPhase (a : Args) (w : World) (fs : List (List String)) :
    List Event × Except String PrepData :=
  ((attemptLoads fs (loadList a)).1,
   if (attemptLoads fs (loadList a)).2 then
     .ok ⟨w.cItos, w.cIds, w.cLbls, fs⟩
   else
     .error "Error: cached file not found.")

/-- The files written by the fresh branch, in program order. -/
def writtenFiles (a : Args) : List (List String) :=
  [vocabFile a, idsFile a TRN, lblFile a TRN, idsFile a VAL, lblFile a VAL,
   idsFile a TST, lblFile a TST]

/-- The actions of the fresh branch of `train_clas.py` lines 66-85: read the
data, build and pickle the vocabulary, then encode and save ids and labels of
each split. -/
def freshEvents (a : Args) (w : World) : List Event :=
  [.readData,
   .pickleDump (vocabFile a) (buildItos w.toks.trn a.max_vocab),
   .saveNpyIds (idsFile a TRN) (encodeSplit (buildItos w.toks.trn a.max_vocab) w.toks.trn),
   .saveNpyLbls (lblFile a TRN) w.lbls.trn,
   .saveNpyIds (idsFile a VAL) (encodeSplit (buildItos w.toks.trn a.max_vocab) w.toks.val),
   .saveNpyLbls (lblFile a VAL) w.lbls.val,
   .saveNpyIds (idsFile a TST) (encodeSplit (buildItos w.toks.trn a.max_vocab) w.toks.tst),
   .saveNpyLbls (lblFile a TST) w.lbls.tst]

/-- The data prepared by the fresh branch: the built vocabulary, the encoded
splits, the labels read from the data, and the filesystem extended by the
written files. -/
def freshData (a : Args) (w : World) (fs : List (List String)) : PrepData :=
  ⟨buildItos w.toks.trn a.max_vocab,
   ⟨encodeSplit (buildItos w.toks.trn a.max_vocab) w.toks.trn,
    encodeSplit (buildItos w.toks.trn a.max_vocab) w.toks.val,
    encodeSplit (buildItos w.toks.trn a.max_vocab) w.toks.tst⟩,
   w.lbls,
   writtenFiles a ++ fs⟩

/-- The fresh branch (`train_clas.py` lines 66-85); its writes always
succeed. -/
def freshPhase (a : Args) (w : World) (fs : List (List String)) :
    List Event × Except String PrepData :=
  (freshEvents a w, .ok (freshData a w fs))

/-- The data-bunch and language-model-learner constructions of
`train_clas.py` lines 98-114: only the train and validation ids and labels,
and the vocabulary, are handed over; the test split is not. -/
def bunchEvents (_a : Args) (d : PrepData) : List Event :=
  [.mkLMBunch d.itos d.ids.trn d.ids.val,
   .mkClasBunch d.itos d.ids.trn d.ids.val d.lbls.trn d.lbls.val,
   .mkLMLearner]

/-- The staged classifier-training calls of `train_clas.py` lines 129-138:
one cycle with the default freezing, `freeze_to(-2)` and one cycle, full
unfreeze and ten cycles, then the final weight save. -/
def clasEvents (a : Args) : List Event :=
  [.fitOneCycle 1, .freezeTo (-2), .fitOneCycle 1, .unfreeze, .fitOneCycle 10,
   .saveWeights (weightsPath a)]

/-- The training part of the script (`train_clas.py` lines 98-138): build
the bunches and the LM learner; when `fine_tune` is set, unfreeze, fit two
epochs and save the encoder; build the classifier learner, load the encoder
(raising when the file does not exist), then run the staged classifier
training and save the weights. -/
def tailPhase (a : Args) (d : PrepData) : List Event × Option String :=
  if a.fine_tune then
    if encPath a ∈ encPath a :: d.fs then
      (bunchEvents a d ++
        [.unfreeze, .fit 2, .saveEncoder (encPath a), .mkClasLearner,
         .loadEncoder (encPath a)] ++ clasEvents a, none)
    else
      (bunchEvents a d ++
        [.unfreeze, .fit 2, .saveEncoder (encPath a), .mkClasLearner,
         .loadEncoder (encPath a)], some "Error: encoder not found.")
  else
    if encPath a ∈ d.fs then
      (bunchEvents a d ++ [.mkClasLearner, .loadEncoder (encPath a)] ++ clasEvents a,
       none)
    else
      (bunchEvents a d ++ [.mkClasLearner, .loadEncoder (encPath a)],
       some "Error: encoder not found.")

/-- The whole of `new_train_clas`: validate the inputs (aborting on the first
failed assertion with no action performed), make the tmp directory, choose
the load or the fresh branch on the existence of the cached training-ids
file, and run the training tail on the prepared data. -/
def new_train_clas (a : Args) (w : World) : RunResult :=
  match validate a w with
  | some e => ⟨[], some e⟩
  | none =>
    match (if idsFile a TRN ∈ tmpDir a :: w.fs
           then loadPhase a w (tmpDir a :: w.fs)
           else freshPhase a w (tmpDir a :: w.fs)) with
    | (es, .error e) => ⟨Event.mkdirTmp (tmpDir a) :: es, some e⟩
    | (es, .ok d) =>
      ⟨Event.mkdirTmp (tmpDir a) :: es ++ (tailPhase a d).1, (tailPhase a d).2⟩

/-- The vocabulary pickled during the run, when one is. -/
def dumpedItos (r : RunResult) : Option (List String) :=
  r.trace.findSome? (fun e => match e with
    | .pickleDump _ itos => some itos
    | _ => none)

/-- The preprocessing-artifact write target of an action, when it has one:
the tmp-directory creation, the pickled vocabulary, and the saved id and
label arrays. -/
def prepWriteTarget : Event → Option (List String)
  | .mkdirTmp p => some p
  | .pickleDump p _ => some p
  | .saveNpyIds p _ => some p
  | .saveNpyLbls p _ => some p
  | _ => none

/-- The model-weight write target of an action, when it has one: the saved
encoder and the saved classifier weights. -/
def modelWriteTarget : Event → Option (List String)
  | .saveEncoder p => some p
  | .saveWeights p => some p
  | _ => none

/-- Whether `d` leads `p`, that is, `p` is `d` itself or a path below the
directory `d`. -/
def underDir : List String → List String → Bool
  | [], _ => true
  | _ :: _, [] => false
  | a :: as, b :: bs => a = b && underDir as bs

/-- Actions that happen before any training call: reads, cache writes and
loads, bunch and LM-learner construction. -/
def isPrepEvent : Event → Bool
  | .mkdirTmp _ => true
  | .readData => true
  | .pickleDump _ _ => true
  | .saveNpyIds _ _ => true
  | .saveNpyLbls _ _ => true
  | .loadNpyIds _ => true
  | .loadNpyLbls _ => true
  | .pickleLoad _ => true
  | .mkLMBunch _ _ _ => true
  | .mkClasBunch _ _ _ _ _ => true
  | .mkLMLearner => true
  | _ => false

/-- Actions that determine the trained model and the saved weights: the data
handed to the bunches and every training, freezing, encoder and weight
action.  File reads and writes of raw arrays are excluded. -/
def isModelEvent : Event → Bool
  | .mkLMBunch _ _ _ => true
  | .mkClasBunch _ _ _ _ _ => true
  | .mkLMLearner => true
  | .unfreeze => true
  | .fit _ => true
  | .saveEncoder _ => true
  | .mkClasLearner => true
  | .loadEncoder _ => true
  | .fitOneCycle _ => true
  | .freezeTo _ => true
  | .saveWeights _ => true
  | _ => false

/-- A concrete valid argument vector used as a witness input. -/
def exArgs : Args :=
  { data_dir := ["data"], lang := "en", cuda_id := 0, pretrain_name := "wt-103",
    model_dir := ["models"], qrnn := true, fine_tune := true, max_vocab := 3,
    bs := 70, bptt := 70, name := "imdb-clas", dataset := "imdb" }

/-- The witness arguments with language-model fine-tuning turned off. -/
def exArgsNoFt : Args := { exArgs with fine_tune := false }

/-- The witness arguments with a different run name; shares the training
input with `exArgs`. -/
def exArgsB : Args := { exArgs with name := "imdb-clas-b", bs := 32 }

/-- A concrete world with no cached files: the fresh branch runs. -/
def exWorldFresh : World :=
  { fs := [["data"], ["data", "imdb"], ["models"]],
    toks := ⟨[["a", "b", "a"], ["b", "a"]], [["a", "c"]], [["d"]]⟩,
    lbls := ⟨[1, 0], [1], [0]⟩,
    cIds := ⟨[], [], []⟩, cLbls := ⟨[], [], []⟩, cItos := [] }

/-- `exWorldFresh` with only the test split changed. -/
def exWorldFresh2 : World :=
  { exWorldFresh with
    toks := ⟨exWorldFresh.toks.trn, exWorldFresh.toks.val, [["z", "z"], ["q"]]⟩,
    lbls := ⟨exWorldFresh.lbls.trn, exWorldFresh.lbls.val, [7, 8]⟩ }

/-- `exWorldFresh` with a changed validation split but the same training
split: used to witness vocabulary determinism. -/
def exWorldFreshC : World :=
  { exWorldFresh with
    toks := ⟨exWorldFresh.toks.trn, [["x"]], exWorldFresh.toks.tst⟩,
    lbls := ⟨exWorldFresh.lbls.trn, [0], exWorldFresh.lbls.val⟩ }

/-- A concrete world in which all seven cached files and a previously saved
encoder exist: the load branch runs. -/
def exWorldCache : World :=
  { fs := [["data"], ["data", "imdb"], ["models"],
           idsFile exArgs TRN, lblFile exArgs TRN, idsFile exArgs VAL, lblFile exArgs VAL,
           idsFile exArgs TST, lblFile exArgs TST, vocabFile exArgs, encPath exArgs],
    toks := ⟨[], [], []⟩, lbls := ⟨[], [], []⟩,
    cIds := ⟨[[2, 3]], [[3]], [[0]]⟩, cLbls := ⟨[0], [1], [0]⟩,
    cItos := [UNK, PAD, "a"] }

/-- Arguments whose data directory is not named `data` although the
directory itself, the dataset directory and the model directory all exist. -/
def c4Args : Args :=
  { data_dir := ["dat"], lang := "en", cuda_id := 0, pretrain_name := "wt-103",
    model_dir := ["models"], qrnn := true, fine_tune := true, max_vocab := 30000,
    bs := 70, bptt := 70, name := "imdb-clas", dataset := "imdb" }

/-- The world for the `c4Args` scenario: all three directories exist. -/
def c4World : World :=
  { fs := [["dat"], ["dat", "imdb"], ["models"]],
    toks := ⟨[], [], []⟩, lbls := ⟨[], [], []⟩,
    cIds := ⟨[], [], []⟩, cLbls := ⟨[], [], []⟩, cItos := [] }

/-! ### Lemmas about the vocabulary machinery -/

theorem mem_uniqAux (x : String) (l : List String) : ∀ seen : List String,
    (x ∈ uniqAux seen l ↔ x ∈ l ∧ x ∉ seen) := by
  induction l with
  | nil => intro seen; simp [uniqAux]
  | cons w ws ih =>
    intro seen
    by_cases hw : w ∈ seen
    · rw [uniqAux, if_pos hw, ih]
      simp only [List.mem_cons]
      constructor
      · rintro ⟨h1, h2⟩
        exact ⟨Or.inr h1, h2⟩
      · rintro ⟨h1 | h1, h2⟩
        · exact absurd (h1.symm ▸ hw) h2
        · exact ⟨h1, h2⟩
    · rw [uniqAux, if_neg hw]
      simp only [List.mem_cons, ih]
      constructor
      · rintro (h1 | ⟨h1, h2⟩)
        · exact ⟨Or.inl h1, h1 ▸ hw⟩
        · exact ⟨Or.inr h1, fun hs => h2 (Or.inr hs)⟩
      · rintro ⟨h1 | h1, h2⟩
        · exact Or.inl h1
        · by_cases hxw : x = w
          · exact Or.inl hxw
          · refine Or.inr ⟨h1, ?_⟩
            simp only [List.mem_cons, not_or]
            exact ⟨hxw, h2⟩

theorem mem_uniqKeys (x : String) (l : List String) : x ∈ uniqKeys l ↔ x ∈ l := by
  rw [uniqKeys, mem_uniqAux]
  simp

theorem mem_insWord (cnt : String → Nat) (w y : String) : ∀ l : List String,
    (y ∈ insWord cnt w l ↔ y = w ∨ y ∈ l) := by
  intro l
  induction l with
  | nil => simp [insWord]
  | cons x xs ih =>
    rw [insWord]
    by_cases h : cnt x ≤ cnt w
    · rw [if_pos h]
      simp [List.mem_cons]
    · rw [if_neg h]
      simp only [List.mem_cons, ih]
      tauto

theorem pairwise_insWord (cnt : String → Nat) (w : String) : ∀ l : List String,
    l.Pairwise (fun u v => cnt v ≤ cnt u) →
    (insWord cnt w l).Pairwise (fun u v => cnt v ≤ cnt u) := by
  intro l
  induction l with
  | nil => intro _; simp [insWord]
  | cons x xs ih =>
    intro h
    rw [List.pairwise_cons] at h
    obtain ⟨hx, hxs⟩ := h
    rw [insWord]
    by_cases hcw : cnt x ≤ cnt w
    · rw [if_pos hcw]
      constructor
      · intro y hy
        rcases List.mem_cons.mp hy with h1 | h1
        · subst h1; exact hcw
        · exact le_trans (hx y h1) hcw
      · exact List.pairwise_cons.mpr ⟨hx, hxs⟩
    · rw [if_neg hcw]
      constructor
      · intro y hy
        rcases (mem_insWord cnt w y xs).mp hy with h1 | h1
        · subst h1; exact le_of_lt (lt_of_not_le hcw)
        · exact hx y h1
      · exact ih hxs

theorem pairwise_sortByCount (cnt : String → Nat) : ∀ l : List String,
    (sortByCount cnt l).Pairwise (fun u v => cnt v ≤ cnt u) := by
  intro l
  induction l with
  | nil => simp [sortByCount]
  | cons x xs ih =>
    rw [sortByCount]
    exact pairwise_insWord cnt x _ ih

theorem mem_sortByCount (cnt : String → Nat) (y : String) : ∀ l : List String,
    (y ∈ sortByCount cnt l ↔ y ∈ l) := by
  intro l
  induction l with
  | nil => simp [sortByCount]
  | cons x xs ih =>
    rw [sortByCount, mem_insWord]
    simp [ih, List.mem_cons]

theorem mostCommon_subset (words : List String) (n : Nat) (t : String)
    (h : t ∈ mostCommon words n) : t ∈ words := by
  have h1 : t ∈ sortByCount (fun t => words.count t) (uniqKeys words) :=
    List.mem_of_mem_take h
  rw [mem_sortByCount, mem_uniqKeys] at h1
  exact h1

theorem mostCommon_length (words : List String) (n : Nat) :
    (mostCommon words n).length ≤ n := by
  rw [mostCommon]
  exact List.length_take_le n _

theorem mostCommon_dominant (words : List String) (n : Nat) (t u : String)
    (ht : t ∈ mostCommon words n) (hu : u ∈ words) (hnu : u ∉ mostCommon words n) :
    words.count u ≤ words.count t := by
  have hsplit := List.take_append_drop n (sortByCount (fun t => words.count t) (uniqKeys words))
  have hpw : (sortByCount (fun t => words.count t) (uniqKeys words)).Pairwise
      (fun a b => words.count b ≤ words.count a) := pairwise_sortByCount _ _
  rw [← hsplit, List.pairwise_append] at hpw
  have hus : u ∈ sortByCount (fun t => words.count t) (uniqKeys words) := by
    rw [mem_sortByCount, mem_uniqKeys]; exact hu
  have hud : u ∈ (sortByCount (fun t => words.count t) (uniqKeys words)).drop n := by
    rcases List.mem_append.mp (hsplit ▸ hus) with h | h
    · exact absurd h hnu
    · exact h
  exact hpw.2.2 t ht u hud

theorem stoiAux_not_mem (w : String) (l : List String) : ∀ i : Nat,
    w ∉ l → stoiAux w i l = 0 := by
  induction l with
  | nil => intro i _; rfl
  | cons x xs ih =>
    intro i h
    rw [stoiAux, if_neg, ih]
    · intro hm; exact h (List.mem_cons_of_mem _ hm)
    · intro hx; exact h (by rw [← hx]; exact List.mem_cons_self x xs)

theorem numericalize_not_mem (itos : List String) (w : String) (h : w ∉ itos) :
    numericalize itos w = 0 :=
  stoiAux_not_mem w itos 0 h

theorem numericalize_buildItos_unk (exs : List (List String)) (n : Nat) :
    numericalize (buildItos exs n) UNK = 0 := by
  simp [numericalize, buildItos, stoiAux]

theorem numericalize_buildItos_pad (exs : List (List String)) (n : Nat) :
    numericalize (buildItos exs n) PAD = 1 := by
  simp [numericalize, buildItos, stoiAux, UNK, PAD]

theorem buildItos_length (exs : List (List String)) (n : Nat) :
    (buildItos exs n).length ≤ n + 2 := by
  have := mostCommon_length exs.flatten n
  simp only [buildItos, List.length_cons]
  omega

theorem mem_buildItos (exs : List (List String)) (n : Nat) (t : String)
    (h : t ∈ buildItos exs n) : t = UNK ∨ t = PAD ∨ t ∈ exs.flatten := by
  rcases List.mem_cons.mp h with h1 | h1
  · exact Or.inl h1
  · rcases List.mem_cons.mp h1 with h2 | h2
    · exact Or.inr (Or.inl h2)
    · exact Or.inr (Or.inr (mostCommon_subset _ _ _ h2))

/-! ### Lemmas about paths and the filesystem -/

theorem append_singleton_ne (d : List String) (x : String) : d ++ [x] ≠ d := by
  intro h
  have h2 := congrArg List.length h
  simp at h2

theorem last_eq_of_append_singleton (d e : List String) (x y : String)
    (h : d ++ [x] = e ++ [y]) : x = y := by
  have h2 := congrArg List.reverse h
  simp at h2
  exact h2.1

theorem underDir_append (d r : List String) : underDir d (d ++ r) = true := by
  induction d with
  | nil => rfl
  | cons a as ih => simp [underDir, ih]

theorem ne_enc_of_long (s : String) (h : 4 ≤ s.length) : s ≠ "enc" := by
  intro he
  rw [he] at h
  exact absurd h (by decide)

theorem concat_ne_enc (s lang t : String) (h : 4 ≤ s.length + t.length) :
    s ++ lang ++ t ≠ "enc" := by
  apply ne_enc_of_long
  rw [String.length_append, String.length_append]
  omega

theorem encPath_ne_tmpDir (a : Args) : encPath a ≠ tmpDir a := by
  intro h
  rw [encPath, tmpDir] at h
  exact absurd (last_eq_of_append_singleton _ _ _ _ h) (by decide)

theorem encPath_not_written (a : Args) : encPath a ∉ writtenFiles a := by
  intro h
  simp only [writtenFiles, List.mem_cons, List.not_mem_nil, or_false] at h
  rcases h with h | h | h | h | h | h | h
  all_goals
    rw [encPath] at h
  · rw [vocabFile] at h
    exact concat_ne_enc "vocab_" a.lang ".pkl" (by decide)
      (last_eq_of_append_singleton _ _ _ _ h).symm
  · rw [idsFile] at h
    exact concat_ne_enc (TRN ++ "_") a.lang "_ids.npy" (by decide)
      (last_eq_of_append_singleton _ _ _ _ h).symm
  · rw [lblFile] at h
    exact concat_ne_enc (TRN ++ "_") a.lang "_lbl.npy" (by decide)
      (last_eq_of_append_singleton _ _ _ _ h).symm
  · rw [idsFile] at h
    exact concat_ne_enc (VAL ++ "_") a.lang "_ids.npy" (by decide)
      (last_eq_of_append_singleton _ _ _ _ h).symm
  · rw [lblFile] at h
    exact concat_ne_enc (VAL ++ "_") a.lang "_lbl.npy" (by decide)
      (last_eq_of_append_singleton _ _ _ _ h).symm
  · rw [idsFile] at h
    exact concat_ne_enc (TST ++ "_") a.lang "_ids.npy" (by decide)
      (last_eq_of_append_singleton _ _ _ _ h).symm
  · rw [lblFile] at h
    exact concat_ne_enc (TST ++ "_") a.lang "_lbl.npy" (by decide)
      (last_eq_of_append_singleton _ _ _ _ h).symm

theorem tmp_file_mem_iff (a : Args) (x : String) (L : List (List String)) :
    tmpDir a ++ [x] ∈ tmpDir a :: L ↔ tmpDir a ++ [x] ∈ L := by
  rw [List.mem_cons]
  simp [append_singleton_ne]

theorem idsFile_mem_iff (a : Args) (s : String) (L : List (List String)) :
    idsFile a s ∈ tmpDir a :: L ↔ idsFile a s ∈ L := by
  rw [idsFile]; exact tmp_file_mem_iff a _ L

theorem lblFile_mem_iff (a : Args) (s : String) (L : List (List String)) :
    lblFile a s ∈ tmpDir a :: L ↔ lblFile a s ∈ L := by
  rw [lblFile]; exact tmp_file_mem_iff a _ L

theorem vocabFile_mem_iff (a : Args) (L : List (List String)) :
    vocabFile a ∈ tmpDir a :: L ↔ vocabFile a ∈ L := by
  rw [vocabFile]; exact tmp_file_mem_iff a _ L

theorem encPath_mem_iff (a : Args) (L : List (List String)) :
    encPath a ∈ tmpDir a :: L ↔ encPath a ∈ L := by
  rw [List.mem_cons]
  simp [encPath_ne_tmpDir]

theorem encPath_mem_written_iff (a : Args) (L : List (List String)) :
    encPath a ∈ writtenFiles a ++ L ↔ encPath a ∈ L := by
  rw [List.mem_append]
  simp [encPath_not_written]

/-! ### Lemmas about the load attempts -/

theorem attemptLoads_events_sub (fs : List (List String)) :
    ∀ (l : List (Event × List String)) (e : Event),
      e ∈ (attemptLoads fs l).1 → e ∈ l.map Prod.fst := by
  intro l
  induction l with
  | nil => intro e he; simp [attemptLoads] at he
  | cons hd tl ih =>
    intro e he
    obtain ⟨ev, p⟩ := hd
    rw [attemptLoads] at he
    by_cases hp : p ∈ fs
    · rw [if_pos hp] at he
      rcases List.mem_cons.mp he with h | h
      · simp [h]
      · have := ih e h
        simp only [List.map_cons, List.mem_cons]
        exact Or.inr this
    · rw [if_neg hp] at he
      simp at he
      simp [he]

theorem attemptLoads_flag (fs : List (List String)) :
    ∀ l : List (Event × List String),
      ((attemptLoads fs l).2 = true ↔ ∀ p ∈ l.map Prod.snd, p ∈ fs) := by
  intro l
  induction l with
  | nil => simp [attemptLoads]
  | cons hd tl ih =>
    obtain ⟨ev, p⟩ := hd
    rw [attemptLoads]
    by_cases hp : p ∈ fs
    · rw [if_pos hp]
      simp [hp, ih]
    · rw [if_neg hp]
      simp [hp]

theorem attemptLoads_head_mem (fs : List (List String)) (e : Event) (p : List String)
    (rest : List (Event × List String)) :
    e ∈ (attemptLoads fs ((e, p) :: rest)).1 := by
  rw [attemptLoads]
  split_ifs <;> simp

theorem attemptLoads_fst_all (fs : List (List String)) :
    ∀ l : List (Event × List String),
      (∀ p ∈ l.map Prod.snd, p ∈ fs) → (attemptLoads fs l).1 = l.map Prod.fst := by
  intro l
  induction l with
  | nil => intro _; rfl
  | cons hd tl ih =>
    intro h
    obtain ⟨ev, p⟩ := hd
    have hp : p ∈ fs := h p (by simp)
    rw [attemptLoads, if_pos hp]
    simp only [List.map_cons, List.cons.injEq, true_and]
    exact ih (fun q hq => h q (by simp [hq]))

/-! ### Characterizations of the run -/

theorem validate_fs_congr (a : Args) (w₁ w₂ : World) (h : w₁.fs = w₂.fs) :
    validate a w₁ = validate a w₂ := by
  simp only [validate, h]

theorem tailPhase_congr (a : Args) (d₁ d₂ : PrepData)
    (h1 : d₁.itos = d₂.itos) (h2 : d₁.ids.trn = d₂.ids.trn) (h3 : d₁.ids.val = d₂.ids.val)
    (h4 : d₁.lbls.trn = d₂.lbls.trn) (h5 : d₁.lbls.val = d₂.lbls.val)
    (h6 : d₁.fs = d₂.fs) :
    tailPhase a d₁ = tailPhase a d₂ := by
  simp only [tailPhase, bunchEvents, h1, h2, h3, h4, h5, h6]

theorem run_validate_some (a : Args) (w : World) (e : String)
    (h : validate a w = some e) : new_train_clas a w = ⟨[], some e⟩ := by
  simp [new_train_clas, h]

theorem run_fresh (a : Args) (w : World) (hv : validate a w = none)
    (hfr : idsFile a TRN ∉ tmpDir a :: w.fs) :
    new_train_clas a w =
      ⟨Event.mkdirTmp (tmpDir a) :: freshEvents a w
          ++ (tailPhase a (freshData a w (tmpDir a :: w.fs))).1,
       (tailPhase a (freshData a w (tmpDir a :: w.fs))).2⟩ := by
  simp [new_train_clas, hv, hfr, freshPhase]

theorem run_load_ok (a : Args) (w : World) (hv : validate a w = none)
    (h7 : ∀ p ∈ (loadList a).map Prod.snd, p ∈ tmpDir a :: w.fs) :
    new_train_clas a w =
      ⟨Event.mkdirTmp (tmpDir a) :: (loadList a).map Prod.fst
          ++ (tailPhase a ⟨w.cItos, w.cIds, w.cLbls, tmpDir a :: w.fs⟩).1,
       (tailPhase a ⟨w.cItos, w.cIds, w.cLbls, tmpDir a :: w.fs⟩).2⟩ := by
  have hm : idsFile a TRN ∈ tmpDir a :: w.fs := by
    apply h7
    simp [loadList]
  have hflag := (attemptLoads_flag _ (loadList a)).mpr h7
  have hfst := attemptLoads_fst_all _ (loadList a) h7
  simp [new_train_clas, hv, hm, loadPhase, hflag, hfst]

theorem run_load_fail (a : Args) (w : World) (hv : validate a w = none)
    (hm : idsFile a TRN ∈ tmpDir a :: w.fs)
    (hmiss : ¬ ∀ p ∈ (loadList a).map Prod.snd, p ∈ tmpDir a :: w.fs) :
    new_train_clas a w =
      ⟨Event.mkdirTmp (tmpDir a) :: (attemptLoads (tmpDir a :: w.fs) (loadList a)).1,
       some "Error: cached file not found."⟩ := by
  have hflag : (attemptLoads (tmpDir a :: w.fs) (loadList a)).2 = false := by
    rw [← Bool.not_eq_true, attemptLoads_flag]
    exact hmiss
  simp [new_train_clas, hv, hm, loadPhase, hflag]

theorem tailPhase_ft (a : Args) (d : PrepData) (h : a.fine_tune = true) :
    tailPhase a d =
      (bunchEvents a d ++
        [Event.unfreeze, .fit 2, .saveEncoder (encPath a), .mkClasLearner,
         .loadEncoder (encPath a)] ++ clasEvents a, none) := by
  simp [tailPhase, h]

theorem tailPhase_noft_present (a : Args) (d : PrepData) (h : a.fine_tune = false)
    (he : encPath a ∈ d.fs) :
    tailPhase a d =
      (bunchEvents a d ++ [Event.mkClasLearner, .loadEncoder (encPath a)]
        ++ clasEvents a, none) := by
  simp [tailPhase, h, he]

theorem tailPhase_noft_absent (a : Args) (d : PrepData) (h : a.fine_tune = false)
    (he : encPath a ∉ d.fs) :
    tailPhase a d =
      (bunchEvents a d ++ [Event.mkClasLearner, .loadEncoder (encPath a)],
       some "Error: encoder not found.") := by
  simp [tailPhase, h, he]

theorem validate_none_iff (a : Args) (w : World) :
    validate a w = none ↔
      (a.dataset ∈ DATASETS ∧ (a.dataset = "imdb" → a.lang = "en") ∧
       dirName a.data_dir = "data" ∧ a.data_dir ∈ w.fs ∧ datasetDir a ∈ w.fs ∧
       a.model_dir ∈ w.fs) := by
  rw [validate]
  split_ifs with h1 h2 h3 h4 h5 h6 <;> simp <;> tauto

theorem readData_not_in_tail (a : Args) (d : PrepData) :
    Event.readData ∉ (tailPhase a d).1 := by
  rw [tailPhase]
  split_ifs <;> simp [bunchEvents, clasEvents]

theorem bunch_head_in_tail (a : Args) (d : PrepData) :
    Event.mkLMBunch d.itos d.ids.trn d.ids.val ∈ (tailPhase a d).1 := by
  rw [tailPhase]
  split_ifs <;> simp [bunchEvents]

theorem tail_decomp (a : Args) (d : PrepData) (hdone : (tailPhase a d).2 = none) :
    (tailPhase a d).1 = bunchEvents a d
      ++ (if a.fine_tune then [Event.unfreeze, .fit 2, .saveEncoder (encPath a)] else [])
      ++ [Event.mkClasLearner, .loadEncoder (encPath a), .fitOneCycle 1, .freezeTo (-2),
          .fitOneCycle 1, .unfreeze, .fitOneCycle 10, .saveWeights (weightsPath a)] := by
  by_cases hft : a.fine_tune = true
  · rw [tailPhase_ft a d hft]
    simp [hft, clasEvents]
  · have hft2 : a.fine_tune = false := by simp at hft; exact hft
    by_cases he : encPath a ∈ d.fs
    · rw [tailPhase_noft_present a d hft2 he]
      simp [hft2, clasEvents]
    · rw [tailPhase_noft_absent a d hft2 he] at hdone
      simp at hdone

theorem tail_events_sub (a : Args) (d : PrepData) :
    ∀ e ∈ (tailPhase a d).1,
      e ∈ bunchEvents a d
        ++ [Event.unfreeze, .fit 2, .saveEncoder (encPath a), .mkClasLearner,
            .loadEncoder (encPath a)] ++ clasEvents a := by
  intro e he
  rw [tailPhase] at he
  split_ifs at he <;>
    simp only [List.mem_append, List.mem_cons, List.not_mem_nil, or_false] at he ⊢ <;>
    tauto

theorem trace_events_shape (a : Args) (w : World) :
    ∀ e ∈ (new_train_clas a w).trace,
      e ∈ [Event.mkdirTmp (tmpDir a)] ++ freshEvents a w ++ (loadList a).map Prod.fst
        ++ bunchEvents a (freshData a w (tmpDir a :: w.fs))
        ++ bunchEvents a ⟨w.cItos, w.cIds, w.cLbls, tmpDir a :: w.fs⟩
        ++ [Event.unfreeze, .fit 2, .saveEncoder (encPath a), .mkClasLearner,
            .loadEncoder (encPath a)] ++ clasEvents a := by
  intro e he
  cases hval : validate a w with
  | some msg =>
    rw [run_validate_some a w msg hval] at he
    simp at he
  | none =>
    by_cases hm : idsFile a TRN ∈ tmpDir a :: w.fs
    · by_cases h7 : ∀ p ∈ (loadList a).map Prod.snd, p ∈ tmpDir a :: w.fs
      · rw [run_load_ok a w hval h7] at he
        rcases List.mem_cons.mp he with h | h
        · simp [h]
        rcases List.mem_append.mp h with h | h
        · simp only [List.mem_append]
          tauto
        · have h2 := tail_events_sub a _ e h
          simp only [List.mem_append] at h2 ⊢
          tauto
      · rw [run_load_fail a w hval hm h7] at he
        rcases List.mem_cons.mp he with h | h
        · simp [h]
        · have h2 := attemptLoads_events_sub _ _ e h
          simp only [List.mem_append]
          tauto
    · rw [run_fresh a w hval hm] at he
      rcases List.mem_cons.mp he with h | h
      · simp [h]
      rcases List.mem_append.mp h with h | h
      · simp only [List.mem_append]
        tauto
      · have h2 := tail_events_sub a _ e h
        simp only [List.mem_append] at h2 ⊢
        tauto

/-! ### The claims -/

/-- C1: the vocabulary token list is built only from tokens of the training
split plus the two reserved tokens, and for every split (train, validation,
test), every example and every token, a token absent from the string-to-id
mapping is encoded as the reserved unknown id, which is the id 0 of `UNK`. -/
theorem vocab_train_only_unknown_to_unk (a : Args) (w : World) :
    (∀ t ∈ buildItos w.toks.trn a.max_vocab,
        t = UNK ∨ t = PAD ∨ t ∈ w.toks.trn.flatten) ∧
    (∀ exs ∈ [w.toks.trn, w.toks.val, w.toks.tst], ∀ ex ∈ exs, ∀ tok ∈ ex,
        tok ∉ buildItos w.toks.trn a.max_vocab →
        numericalize (buildItos w.toks.trn a.max_vocab) tok = 0) ∧
    numericalize (buildItos w.toks.trn a.max_vocab) UNK = 0 := by
  refine ⟨fun t ht => mem_buildItos _ _ t ht, ?_, numericalize_buildItos_unk _ _⟩
  intro exs _ ex _ tok _ hnm
  exact numericalize_not_mem _ _ hnm

/-- Witness for C1: in the concrete fresh-branch world, the validation-split
token `c` is absent from the vocabulary and is encoded as 0. -/
theorem vocab_train_only_unknown_to_unk_witness :
    numericalize (buildItos exWorldFresh.toks.trn exArgs.max_vocab) "c" = 0 :=
  (vocab_train_only_unknown_to_unk exArgs exWorldFresh).2.1
    exWorldFresh.toks.val (by simp)
    ["a", "c"] (by decide)
    "c" (by decide)
    (by decide)

/-- C2: the constructed vocabulary consists of the most frequent
training-split tokens (every kept token has a count at least that of every
dropped training token), is bounded in size by `max_vocab` plus the two
reserved tokens, assigns id 0 to the unknown token and id 1 (that is,
`PAD_TOKEN_ID`) to the padding token, and is persisted to disk by the run. -/
theorem vocab_most_frequent_reserved_persisted (a : Args) (w : World)
    (hv : validate a w = none) (hfr : idsFile a TRN ∉ tmpDir a :: w.fs) :
    (buildItos w.toks.trn a.max_vocab).length ≤ a.max_vocab + 2 ∧
    numericalize (buildItos w.toks.trn a.max_vocab) UNK = 0 ∧
    numericalize (buildItos w.toks.trn a.max_vocab) PAD = PAD_TOKEN_ID ∧
    (∀ t ∈ mostCommon w.toks.trn.flatten a.max_vocab, t ∈ w.toks.trn.flatten) ∧
    (∀ t ∈ mostCommon w.toks.trn.flatten a.max_vocab,
     ∀ u ∈ w.toks.trn.flatten, u ∉ mostCommon w.toks.trn.flatten a.max_vocab →
        w.toks.trn.flatten.count u ≤ w.toks.trn.flatten.count t) ∧
    Event.pickleDump (vocabFile a) (buildItos w.toks.trn a.max_vocab)
      ∈ (new_train_clas a w).trace := by
  refine ⟨buildItos_length _ _, numericalize_buildItos_unk _ _,
    numericalize_buildItos_pad _ _, fun t ht => mostCommon_subset _ _ t ht,
    fun t ht u hu hnu => mostCommon_dominant _ _ t u ht hu hnu, ?_⟩
  rw [run_fresh a w hv hfr]
  simp [freshEvents]

/-- Witness for C2: the concrete fresh-branch run pickles the vocabulary it
builds from the training split. -/
theorem vocab_most_frequent_reserved_persisted_witness :
    Event.pickleDump (vocabFile exArgs) (buildItos exWorldFresh.toks.trn exArgs.max_vocab)
      ∈ (new_train_clas exArgs exWorldFresh).trace :=
  (vocab_most_frequent_reserved_persisted exArgs exWorldFresh
    (by decide) (by decide)).2.2.2.2.2

/-- C5: vocabulary construction is deterministic: two runs whose training
splits and maximum vocabulary sizes agree build and pickle identical ordered
token lists, whatever their other inputs. -/
theorem vocab_deterministic (a₁ a₂ : Args) (w₁ w₂ : World)
    (ht : w₁.toks.trn = w₂.toks.trn) (hm : a₁.max_vocab = a₂.max_vocab)
    (hv₁ : validate a₁ w₁ = none) (hv₂ : validate a₂ w₂ = none)
    (hf₁ : idsFile a₁ TRN ∉ tmpDir a₁ :: w₁.fs)
    (hf₂ : idsFile a₂ TRN ∉ tmpDir a₂ :: w₂.fs) :
    buildItos w₁.toks.trn a₁.max_vocab = buildItos w₂.toks.trn a₂.max_vocab ∧
    dumpedItos (new_train_clas a₁ w₁) = dumpedItos (new_train_clas a₂ w₂) := by
  have hb : buildItos w₁.toks.trn a₁.max_vocab = buildItos w₂.toks.trn a₂.max_vocab := by
    rw [ht, hm]
  refine ⟨hb, ?_⟩
  rw [run_fresh a₁ w₁ hv₁ hf₁, run_fresh a₂ w₂ hv₂ hf₂]
  simp [dumpedItos, freshEvents, hb]

/-- Witness for C5: two concrete runs with different run names, batch sizes
and validation splits but the same training split pickle the same
vocabulary. -/
theorem vocab_deterministic_witness :
    dumpedItos (new_train_clas exArgs exWorldFresh)
      = dumpedItos (new_train_clas exArgsB exWorldFreshC) :=
  (vocab_deterministic exArgs exArgsB exWorldFresh exWorldFreshC
    (by rfl) (by rfl) (by decide) (by decide) (by decide) (by decide)).2

/-- C3: when the cached training-ids file exists (together with the other
cached files) the run loads every cached id array, label array and the
pickled vocabulary and never reads the raw data, handing the cached contents
to the data bunches; when it does not exist the run reads the data,
tokenizes and encodes every split, builds the vocabulary, and saves the
vocabulary and the ids and labels of every split to disk. -/
theorem cache_reuse_or_fresh_tokenize (a : Args) (w : World)
    (hv : validate a w = none) :
    ((idsFile a TRN ∈ w.fs ∧ lblFile a TRN ∈ w.fs ∧ idsFile a VAL ∈ w.fs ∧
      lblFile a VAL ∈ w.fs ∧ idsFile a TST ∈ w.fs ∧ lblFile a TST ∈ w.fs ∧
      vocabFile a ∈ w.fs) →
      (Event.readData ∉ (new_train_clas a w).trace ∧
       (∀ ep ∈ loadList a, ep.1 ∈ (new_train_clas a w).trace) ∧
       Event.mkLMBunch w.cItos w.cIds.trn w.cIds.val ∈ (new_train_clas a w).trace)) ∧
    (idsFile a TRN ∉ w.fs →
      (Event.readData ∈ (new_train_clas a w).trace ∧
       (∀ e ∈ freshEvents a w, e ∈ (new_train_clas a w).trace))) := by
  constructor
  · rintro ⟨h1, h2, h3, h4, h5, h6, h7⟩
    have hall : ∀ p ∈ (loadList a).map Prod.snd, p ∈ tmpDir a :: w.fs := by
      intro p hp
      simp only [loadList, List.map_cons, List.map_nil, List.mem_cons,
        List.not_mem_nil, or_false] at hp
      rcases hp with h | h | h | h | h | h | h <;> subst h
      · exact (idsFile_mem_iff a TRN w.fs).mpr h1
      · exact (lblFile_mem_iff a TRN w.fs).mpr h2
      · exact (idsFile_mem_iff a VAL w.fs).mpr h3
      · exact (lblFile_mem_iff a VAL w.fs).mpr h4
      · exact (idsFile_mem_iff a TST w.fs).mpr h5
      · exact (lblFile_mem_iff a TST w.fs).mpr h6
      · exact (vocabFile_mem_iff a w.fs).mpr h7
    rw [run_load_ok a w hv hall]
    refine ⟨?_, ?_, ?_⟩
    · intro hmem
      rcases List.mem_cons.mp hmem with h | h
      · cases h
      rcases List.mem_append.mp h with h | h
      · simp [loadList] at h
      · exact readData_not_in_tail a _ h
    · intro ep hep
      have hm := List.mem_map_of_mem Prod.fst hep
      simp only [List.mem_cons, List.mem_append]
      tauto
    · have hb : Event.mkLMBunch w.cItos w.cIds.trn w.cIds.val
          ∈ (tailPhase a ⟨w.cItos, w.cIds, w.cLbls, tmpDir a :: w.fs⟩).1 :=
        bunch_head_in_tail a _
      simp only [List.mem_cons, List.mem_append]
      tauto
  · intro hfr
    have hfr0 : idsFile a TRN ∉ tmpDir a :: w.fs := by
      rw [idsFile_mem_iff]
      exact hfr
    rw [run_fresh a w hv hfr0]
    constructor
    · simp [freshEvents]
    · intro e hee
      simp only [List.mem_cons, List.mem_append]
      tauto

/-- Witness for C3: in the concrete cached world the run does not read the
raw data. -/
theorem cache_reuse_or_fresh_tokenize_witness :
    Event.readData ∉ (new_train_clas exArgs exWorldCache).trace :=
  ((cache_reuse_or_fresh_tokenize exArgs exWorldCache (by decide)).1 (by decide)).1

/-- C4 counterexample: an input on which the dataset is supported, the
language is compatible with the dataset and all three directories exist —
every check the claim lists — yet the run still aborts during input
validation, because of the unlisted assertion that the data directory be
named `data`. -/
theorem validation_has_fourth_assert :
    (c4Args.dataset ∈ DATASETS ∧ (c4Args.dataset = "imdb" → c4Args.lang = "en") ∧
     c4Args.data_dir ∈ c4World.fs ∧ datasetDir c4Args ∈ c4World.fs ∧
     c4Args.model_dir ∈ c4World.fs) ∧
    (validate c4Args c4World).isSome ∧
    (new_train_clas c4Args c4World).err.isSome ∧
    (new_train_clas c4Args c4World).trace = [] := by
  refine ⟨by decide, by decide, ?_, ?_⟩ <;> rfl

/-- C4 (amended): the error handling of the script consists exactly of the
input-validity assertions — dataset support, language/dataset compatibility,
the naming of the data directory, and the existence of the data, dataset and
model directories.  Validation passes iff they all hold, and the first
failing assertion aborts the run with its message before any action is
performed; there is no recovery or retry logic. -/
theorem error_handling_is_assertions (a : Args) (w : World) :
    (validate a w = none ↔
      (a.dataset ∈ DATASETS ∧ (a.dataset = "imdb" → a.lang = "en") ∧
       dirName a.data_dir = "data" ∧ a.data_dir ∈ w.fs ∧ datasetDir a ∈ w.fs ∧
       a.model_dir ∈ w.fs)) ∧
    (∀ e, validate a w = some e → new_train_clas a w = ⟨[], some e⟩) :=
  ⟨validate_none_iff a w, fun e he => run_validate_some a w e he⟩

/-- Witness for C4 (amended): the concrete misnamed-directory run aborts
with the naming message and performs no action. -/
theorem error_handling_is_assertions_witness :
    new_train_clas c4Args c4World
      = ⟨[], some "Error: Name of data directory should be data, not dat."⟩ :=
  (error_handling_is_assertions c4Args c4World).2
    "Error: Name of data directory should be data, not dat." (by rfl)

/-- C6: every completed run has a fixed sequence: a preparatory segment
(data read or cache load, vocabulary build or load, cache writes, bunch and
learner construction), then — exactly when the fine-tuning flag is set —
language-model unfreezing, a two-epoch fit and the encoder save, then the
classifier learner, the encoder load and the staged classifier training (one
cycle with default freezing, freeze_to(-2) and one cycle, full unfreeze and
ten cycles), with the weight save as the very last action. -/
theorem training_fixed_sequence (a : Args) (w : World)
    (hdone : (new_train_clas a w).err = none) :
    ∃ pre : List Event,
      (new_train_clas a w).trace
        = pre ++ (if a.fine_tune then
              [Event.unfreeze, .fit 2, .saveEncoder (encPath a)] else [])
          ++ [Event.mkClasLearner, .loadEncoder (encPath a), .fitOneCycle 1,
              .freezeTo (-2), .fitOneCycle 1, .unfreeze, .fitOneCycle 10,
              .saveWeights (weightsPath a)] ∧
      (∀ e ∈ pre, isPrepEvent e = true) := by
  cases hval : validate a w with
  | some msg =>
    rw [run_validate_some a w msg hval] at hdone
    simp at hdone
  | none =>
    by_cases hm : idsFile a TRN ∈ tmpDir a :: w.fs
    · by_cases h7 : ∀ p ∈ (loadList a).map Prod.snd, p ∈ tmpDir a :: w.fs
      · rw [run_load_ok a w hval h7] at hdone ⊢
        refine ⟨Event.mkdirTmp (tmpDir a) :: (loadList a).map Prod.fst
          ++ bunchEvents a ⟨w.cItos, w.cIds, w.cLbls, tmpDir a :: w.fs⟩, ?_, ?_⟩
        · show Event.mkdirTmp (tmpDir a) :: (loadList a).map Prod.fst
            ++ (tailPhase a ⟨w.cItos, w.cIds, w.cLbls, tmpDir a :: w.fs⟩).1 = _
          rw [tail_decomp _ _ hdone]
          simp [clasEvents]
        · intro e he
          rcases List.mem_cons.mp he with h | h
          · subst h; rfl
          rcases List.mem_append.mp h with h | h
          · simp only [loadList, List.map_cons, List.map_nil, List.mem_cons,
              List.not_mem_nil, or_false] at h
            rcases h with h|h|h|h|h|h|h <;> subst h <;> rfl
          · simp only [bunchEvents, List.mem_cons, List.not_mem_nil, or_false] at h
            rcases h with h|h|h <;> subst h <;> rfl
      · rw [run_load_fail a w hval hm h7] at hdone
        simp at hdone
    · rw [run_fresh a w hval hm] at hdone ⊢
      refine ⟨Event.mkdirTmp (tmpDir a) :: freshEvents a w
        ++ bunchEvents a (freshData a w (tmpDir a :: w.fs)), ?_, ?_⟩
      · show Event.mkdirTmp (tmpDir a) :: freshEvents a w
          ++ (tailPhase a (freshData a w (tmpDir a :: w.fs))).1 = _
        rw [tail_decomp _ _ hdone]
        simp [clasEvents]
      · intro e he
        rcases List.mem_cons.mp he with h | h
        · subst h; rfl
        rcases List.mem_append.mp h with h | h
        · simp only [freshEvents, List.mem_cons, List.not_mem_nil, or_false] at h
          rcases h with h|h|h|h|h|h|h|h <;> subst h <;> rfl
        · simp only [bunchEvents, List.mem_cons, List.not_mem_nil, or_false] at h
          rcases h with h|h|h <;> subst h <;> rfl

/-- Witness for C6: the concrete fresh, fine-tuning run completes and has
the stated decomposition. -/
theorem training_fixed_sequence_witness :
    ∃ pre : List Event,
      (new_train_clas exArgs exWorldFresh).trace
        = pre ++ (if exArgs.fine_tune then
              [Event.unfreeze, .fit 2, .saveEncoder (encPath exArgs)] else [])
          ++ [Event.mkClasLearner, .loadEncoder (encPath exArgs), .fitOneCycle 1,
              .freezeTo (-2), .fitOneCycle 1, .unfreeze, .fitOneCycle 10,
              .saveWeights (weightsPath exArgs)] ∧
      (∀ e ∈ pre, isPrepEvent e = true) :=
  training_fixed_sequence exArgs exWorldFresh (by rfl)

/-- C7: every preprocessing-artifact write (the tmp directory, the saved id
and label arrays, the pickled vocabulary) targets the tmp subdirectory of
`data/<dataset>`, every model-weight write (the encoder, the classifier
weights) targets the model directory, no other writes exist, and the run
requires the `data/<dataset>` directory to exist. -/
theorem underDir_refl (d : List String) : underDir d d = true := by
  induction d with
  | nil => rfl
  | cons x xs ih => simp [underDir, ih]

theorem writes_confined (a : Args) (w : World) :
    (∀ e ∈ (new_train_clas a w).trace,
      (∀ p, prepWriteTarget e = some p → underDir (tmpDir a) p = true) ∧
      (∀ p, modelWriteTarget e = some p → underDir a.model_dir p = true)) ∧
    (validate a w = none → datasetDir a ∈ w.fs) := by
  refine ⟨?_, fun hv => ((validate_none_iff a w).mp hv).2.2.2.2.1⟩
  intro e he
  have hsub := trace_events_shape a w e he
  clear he
  simp only [freshEvents, bunchEvents, clasEvents, loadList, List.map_cons,
    List.map_nil, List.mem_append, List.mem_cons, List.not_mem_nil, or_false,
    or_assoc] at hsub
  rcases hsub with h|h|h|h|h|h|h|h|h|h|h|h|h|h|h|h|h|h|h|h|h|h|h|h|h|h|h|h|h|h|h|h|h <;>
    subst h <;>
    refine ⟨fun p hp => ?_, fun p hp => ?_⟩ <;>
    simp only [prepWriteTarget, modelWriteTarget] at hp <;>
    first
      | exact Option.noConfusion hp
      | (injection hp with hq
         subst hq
         simp [vocabFile, idsFile, lblFile, encPath, weightsPath,
           underDir_append, underDir_refl])

/-- Witness for C7: the concrete valid world contains its dataset
directory. -/
theorem writes_confined_witness :
    datasetDir exArgs ∈ exWorldFresh.fs :=
  (writes_confined exArgs exWorldFresh).2 (by rfl)

/-- C8: the cache decision tests only the existence of the training-ids
file: with it present the raw data is never read and its load is performed;
the remaining cached files are read without prior existence checks (the
vocabulary pickle is attempted as soon as the six arrays load, whether or
not it exists), loading reaches the data bunches exactly when all seven
cached files exist, and otherwise the run aborts. -/
theorem cache_check_only_trn_ids (a : Args) (w : World)
    (hv : validate a w = none) (htrn : idsFile a TRN ∈ w.fs) :
    Event.readData ∉ (new_train_clas a w).trace ∧
    Event.loadNpyIds (idsFile a TRN) ∈ (new_train_clas a w).trace ∧
    ((lblFile a TRN ∈ w.fs ∧ idsFile a VAL ∈ w.fs ∧ lblFile a VAL ∈ w.fs ∧
      idsFile a TST ∈ w.fs ∧ lblFile a TST ∈ w.fs) →
        Event.pickleLoad (vocabFile a) ∈ (new_train_clas a w).trace) ∧
    ((Event.mkLMBunch w.cItos w.cIds.trn w.cIds.val ∈ (new_train_clas a w).trace) ↔
      (lblFile a TRN ∈ w.fs ∧ idsFile a VAL ∈ w.fs ∧ lblFile a VAL ∈ w.fs ∧
       idsFile a TST ∈ w.fs ∧ lblFile a TST ∈ w.fs ∧ vocabFile a ∈ w.fs)) ∧
    (¬(lblFile a TRN ∈ w.fs ∧ idsFile a VAL ∈ w.fs ∧ lblFile a VAL ∈ w.fs ∧
       idsFile a TST ∈ w.fs ∧ lblFile a TST ∈ w.fs ∧ vocabFile a ∈ w.fs) →
        (new_train_clas a w).err.isSome) := by
  have htrn0 : idsFile a TRN ∈ tmpDir a :: w.fs := (idsFile_mem_iff a TRN w.fs).mpr htrn
  by_cases hall : lblFile a TRN ∈ w.fs ∧ idsFile a VAL ∈ w.fs ∧ lblFile a VAL ∈ w.fs ∧
      idsFile a TST ∈ w.fs ∧ lblFile a TST ∈ w.fs ∧ vocabFile a ∈ w.fs
  · obtain ⟨h2, h3, h4, h5, h6, h7⟩ := hall
    have hallp : ∀ p ∈ (loadList a).map Prod.snd, p ∈ tmpDir a :: w.fs := by
      intro p hp
      simp only [loadList, List.map_cons, List.map_nil, List.mem_cons,
        List.not_mem_nil, or_false] at hp
      rcases hp with h|h|h|h|h|h|h <;> subst h
      · exact htrn0
      · exact (lblFile_mem_iff a TRN w.fs).mpr h2
      · exact (idsFile_mem_iff a VAL w.fs).mpr h3
      · exact (lblFile_mem_iff a VAL w.fs).mpr h4
      · exact (idsFile_mem_iff a TST w.fs).mpr h5
      · exact (lblFile_mem_iff a TST w.fs).mpr h6
      · exact (vocabFile_mem_iff a w.fs).mpr h7
    rw [run_load_ok a w hv hallp]
    refine ⟨?_, ?_, ?_, ?_, ?_⟩
    · intro hmem
      rcases List.mem_cons.mp hmem with h | h
      · cases h
      rcases List.mem_append.mp h with h | h
      · simp [loadList] at h
      · exact readData_not_in_tail a _ h
    · have hm1 : Event.loadNpyIds (idsFile a TRN) ∈ (loadList a).map Prod.fst := by
        simp [loadList]
      simp only [List.mem_cons, List.mem_append]
      tauto
    · intro _
      have hm1 : Event.pickleLoad (vocabFile a) ∈ (loadList a).map Prod.fst := by
        simp [loadList]
      simp only [List.mem_cons, List.mem_append]
      tauto
    · constructor
      · intro _
        exact ⟨h2, h3, h4, h5, h6, h7⟩
      · intro _
        have hb : Event.mkLMBunch w.cItos w.cIds.trn w.cIds.val
            ∈ (tailPhase a ⟨w.cItos, w.cIds, w.cLbls, tmpDir a :: w.fs⟩).1 :=
          bunch_head_in_tail a _
        simp only [List.mem_cons, List.mem_append]
        tauto
    · intro hc
      exact absurd ⟨h2, h3, h4, h5, h6, h7⟩ hc
  · have hmiss : ¬ ∀ p ∈ (loadList a).map Prod.snd, p ∈ tmpDir a :: w.fs := by
      intro hforall
      apply hall
      refine ⟨?_, ?_, ?_, ?_, ?_, ?_⟩
      · exact (lblFile_mem_iff a TRN w.fs).mp (hforall _ (by simp [loadList]))
      · exact (idsFile_mem_iff a VAL w.fs).mp (hforall _ (by simp [loadList]))
      · exact (lblFile_mem_iff a VAL w.fs).mp (hforall _ (by simp [loadList]))
      · exact (idsFile_mem_iff a TST w.fs).mp (hforall _ (by simp [loadList]))
      · exact (lblFile_mem_iff a TST w.fs).mp (hforall _ (by simp [loadList]))
      · exact (vocabFile_mem_iff a w.fs).mp (hforall _ (by simp [loadList]))
    rw [run_load_fail a w hv htrn0 hmiss]
    refine ⟨?_, ?_, ?_, ?_, ?_⟩
    · intro hmem
      rcases List.mem_cons.mp hmem with h | h
      · cases h
      · have h2 := attemptLoads_events_sub _ _ _ h
        simp [loadList] at h2
    · have hm1 : Event.loadNpyIds (idsFile a TRN)
          ∈ (attemptLoads (tmpDir a :: w.fs) (loadList a)).1 := by
        rw [loadList]
        exact attemptLoads_head_mem _ _ _ _
      simp only [List.mem_cons]
      tauto
    · intro h5c
      obtain ⟨k2, k3, k4, k5, k6⟩ := h5c
      have hv7 : vocabFile a ∉ w.fs := fun hvf => hall ⟨k2, k3, k4, k5, k6, hvf⟩
      have hv70 : vocabFile a ∉ tmpDir a :: w.fs := by
        rw [vocabFile_mem_iff]
        exact hv7
      have m2 := (lblFile_mem_iff a TRN w.fs).mpr k2
      have m3 := (idsFile_mem_iff a VAL w.fs).mpr k3
      have m4 := (lblFile_mem_iff a VAL w.fs).mpr k4
      have m5 := (idsFile_mem_iff a TST w.fs).mpr k5
      have m6 := (lblFile_mem_iff a TST w.fs).mpr k6
      simp only [List.mem_cons]
      right
      simp [loadList, attemptLoads, htrn0, m2, m3, m4, m5, m6, hv70]
    · constructor
      · intro hmem
        exfalso
        rcases List.mem_cons.mp hmem with h | h
        · cases h
        · have h2 := attemptLoads_events_sub _ _ _ h
          simp [loadList] at h2
      · intro hc
        exact absurd hc hall
    · intro _
      rfl

/-- Witness for C8: in the concrete cached world the training-ids load is
performed. -/
theorem cache_check_only_trn_ids_witness :
    Event.loadNpyIds (idsFile exArgs TRN) ∈ (new_train_clas exArgs exWorldCache).trace :=
  (cache_check_only_trn_ids exArgs exWorldCache (by decide) (by decide)).2.1

theorem tail_noft_props (a : Args) (d : PrepData) (hft : a.fine_tune = false) :
    (∀ n, Event.fit n ∉ (tailPhase a d).1) ∧
    (∀ p, Event.saveEncoder p ∉ (tailPhase a d).1) ∧
    ((tailPhase a d).2 = none → Event.loadEncoder (encPath a) ∈ (tailPhase a d).1) ∧
    (encPath a ∉ d.fs → ((tailPhase a d).2).isSome) := by
  by_cases he : encPath a ∈ d.fs
  · rw [tailPhase_noft_present a d hft he]
    refine ⟨?_, ?_, ?_, ?_⟩
    · intro n
      simp [bunchEvents, clasEvents]
    · intro p
      simp [bunchEvents, clasEvents]
    · intro _
      simp [bunchEvents, clasEvents]
    · intro hne
      exact absurd he hne
  · rw [tailPhase_noft_absent a d hft he]
    refine ⟨?_, ?_, ?_, ?_⟩
    · intro n
      simp [bunchEvents]
    · intro p
      simp [bunchEvents]
    · intro h
      simp at h
    · intro _
      rfl

/-- C9: with the fine-tuning flag off the run never fits the language model
and never saves an encoder, yet a completed run still loads the encoder file
`enc` from the model directory; when that file was not already present —
left by a previous run with fine-tuning enabled — the run aborts. -/
theorem no_finetune_needs_prior_encoder (a : Args) (w : World)
    (hft : a.fine_tune = false) :
    (∀ n, Event.fit n ∉ (new_train_clas a w).trace) ∧
    (∀ p, Event.saveEncoder p ∉ (new_train_clas a w).trace) ∧
    ((new_train_clas a w).err = none →
        Event.loadEncoder (encPath a) ∈ (new_train_clas a w).trace) ∧
    (encPath a ∉ w.fs → ((new_train_clas a w).err).isSome) := by
  cases hval : validate a w with
  | some msg =>
    rw [run_validate_some a w msg hval]
    refine ⟨by simp, by simp, by simp, by simp⟩
  | none =>
    by_cases hm : idsFile a TRN ∈ tmpDir a :: w.fs
    · by_cases h7 : ∀ p ∈ (loadList a).map Prod.snd, p ∈ tmpDir a :: w.fs
      · rw [run_load_ok a w hval h7]
        have hd := tail_noft_props a ⟨w.cItos, w.cIds, w.cLbls, tmpDir a :: w.fs⟩ hft
        refine ⟨?_, ?_, ?_, ?_⟩
        · intro n hmem
          rcases List.mem_cons.mp hmem with h | h
          · cases h
          rcases List.mem_append.mp h with h | h
          · simp [loadList] at h
          · exact hd.1 n h
        · intro p hmem
          rcases List.mem_cons.mp hmem with h | h
          · cases h
          rcases List.mem_append.mp h with h | h
          · simp [loadList] at h
          · exact hd.2.1 p h
        · intro hdone
          have hin := hd.2.2.1 hdone
          simp only [List.mem_cons, List.mem_append]
          tauto
        · intro hne
          apply hd.2.2.2
          show encPath a ∉ tmpDir a :: w.fs
          rw [encPath_mem_iff]
          exact hne
      · rw [run_load_fail a w hval hm h7]
        refine ⟨?_, ?_, ?_, ?_⟩
        · intro n hmem
          rcases List.mem_cons.mp hmem with h | h
          · cases h
          · have h2 := attemptLoads_events_sub _ _ _ h
            simp [loadList] at h2
        · intro p hmem
          rcases List.mem_cons.mp hmem with h | h
          · cases h
          · have h2 := attemptLoads_events_sub _ _ _ h
            simp [loadList] at h2
        · intro hdone
          simp at hdone
        · intro _
          rfl
    · rw [run_fresh a w hval hm]
      have hd := tail_noft_props a (freshData a w (tmpDir a :: w.fs)) hft
      refine ⟨?_, ?_, ?_, ?_⟩
      · intro n hmem
        rcases List.mem_cons.mp hmem with h | h
        · cases h
        rcases List.mem_append.mp h with h | h
        · simp [freshEvents] at h
        · exact hd.1 n h
      · intro p hmem
        rcases List.mem_cons.mp hmem with h | h
        · cases h
        rcases List.mem_append.mp h with h | h
        · simp [freshEvents] at h
        · exact hd.2.1 p h
      · intro hdone
        have hin := hd.2.2.1 hdone
        simp only [List.mem_cons, List.mem_append]
        tauto
      · intro hne
        apply hd.2.2.2
        show encPath a ∉ writtenFiles a ++ (tmpDir a :: w.fs)
        rw [encPath_mem_written_iff, encPath_mem_iff]
        exact hne

/-- Witness for C9: the concrete non-fine-tuning run in a world without a
previously saved encoder aborts. -/
theorem no_finetune_needs_prior_encoder_witness :
    ((new_train_clas exArgsNoFt exWorldFresh).err).isSome :=
  (no_finetune_needs_prior_encoder exArgsNoFt exWorldFresh (by rfl)).2.2.2 (by decide)

/-- C10: the test split is cached like the other splits (its encoded ids are
saved by the fresh branch) but it is never handed to a data bunch or to a
training call: two runs whose inputs agree everywhere except in the test
split produce the same error status and exactly the same model-determining
actions. -/
theorem test_split_no_influence (a : Args) (w₁ w₂ : World)
    (hfs : w₁.fs = w₂.fs)
    (ht1 : w₁.toks.trn = w₂.toks.trn) (ht2 : w₁.toks.val = w₂.toks.val)
    (hl1 : w₁.lbls.trn = w₂.lbls.trn) (hl2 : w₁.lbls.val = w₂.lbls.val)
    (hc0 : w₁.cItos = w₂.cItos)
    (hc1 : w₁.cIds.trn = w₂.cIds.trn) (hc2 : w₁.cIds.val = w₂.cIds.val)
    (hc3 : w₁.cLbls.trn = w₂.cLbls.trn) (hc4 : w₁.cLbls.val = w₂.cLbls.val) :
    (new_train_clas a w₁).err = (new_train_clas a w₂).err ∧
    (new_train_clas a w₁).trace.filter isModelEvent
      = (new_train_clas a w₂).trace.filter isModelEvent ∧
    (validate a w₁ = none → idsFile a TRN ∉ tmpDir a :: w₁.fs →
      Event.saveNpyIds (idsFile a TST)
          (encodeSplit (buildItos w₁.toks.trn a.max_vocab) w₁.toks.tst)
        ∈ (new_train_clas a w₁).trace) := by
  have hvv : validate a w₁ = validate a w₂ := validate_fs_congr a w₁ w₂ hfs
  have hmain : (new_train_clas a w₁).err = (new_train_clas a w₂).err ∧
      (new_train_clas a w₁).trace.filter isModelEvent
        = (new_train_clas a w₂).trace.filter isModelEvent := by
    cases hval : validate a w₁ with
    | some msg =>
      rw [run_validate_some a w₁ msg hval, run_validate_some a w₂ msg (hvv ▸ hval)]
      exact ⟨rfl, rfl⟩
    | none =>
      have hval₂ : validate a w₂ = none := hvv ▸ hval
      by_cases hm : idsFile a TRN ∈ tmpDir a :: w₁.fs
      · have hm₂ : idsFile a TRN ∈ tmpDir a :: w₂.fs := by
          rw [← hfs]; exact hm
        by_cases h7 : ∀ p ∈ (loadList a).map Prod.snd, p ∈ tmpDir a :: w₁.fs
        · have h7₂ : ∀ p ∈ (loadList a).map Prod.snd, p ∈ tmpDir a :: w₂.fs := by
            rw [← hfs]; exact h7
          rw [run_load_ok a w₁ hval h7, run_load_ok a w₂ hval₂ h7₂]
          have hcongr : tailPhase a ⟨w₁.cItos, w₁.cIds, w₁.cLbls, tmpDir a :: w₁.fs⟩
              = tailPhase a ⟨w₂.cItos, w₂.cIds, w₂.cLbls, tmpDir a :: w₂.fs⟩ :=
            tailPhase_congr a _ _ hc0 hc1 hc2 hc3 hc4 (by rw [hfs])
          rw [hcongr]
          exact ⟨rfl, rfl⟩
        · have h7₂ : ¬ ∀ p ∈ (loadList a).map Prod.snd, p ∈ tmpDir a :: w₂.fs := by
            rw [← hfs]; exact h7
          rw [run_load_fail a w₁ hval hm h7, run_load_fail a w₂ hval₂ hm₂ h7₂, hfs]
          exact ⟨rfl, rfl⟩
      · have hm₂ : idsFile a TRN ∉ tmpDir a :: w₂.fs := by
          rw [← hfs]; exact hm
        rw [run_fresh a w₁ hval hm, run_fresh a w₂ hval₂ hm₂]
        have hcongr : tailPhase a (freshData a w₁ (tmpDir a :: w₁.fs))
            = tailPhase a (freshData a w₂ (tmpDir a :: w₂.fs)) := by
          apply tailPhase_congr
          · show buildItos w₁.toks.trn a.max_vocab = buildItos w₂.toks.trn a.max_vocab
            rw [ht1]
          · show encodeSplit (buildItos w₁.toks.trn a.max_vocab) w₁.toks.trn
              = encodeSplit (buildItos w₂.toks.trn a.max_vocab) w₂.toks.trn
            rw [ht1]
          · show encodeSplit (buildItos w₁.toks.trn a.max_vocab) w₁.toks.val
              = encodeSplit (buildItos w₂.toks.trn a.max_vocab) w₂.toks.val
            rw [ht1, ht2]
          · exact hl1
          · exact hl2
          · show writtenFiles a ++ (tmpDir a :: w₁.fs)
              = writtenFiles a ++ (tmpDir a :: w₂.fs)
            rw [hfs]
        rw [hcongr]
        refine ⟨rfl, ?_⟩
        show (Event.mkdirTmp (tmpDir a) :: freshEvents a w₁
            ++ (tailPhase a (freshData a w₂ (tmpDir a :: w₂.fs))).1).filter isModelEvent
          = (Event.mkdirTmp (tmpDir a) :: freshEvents a w₂
            ++ (tailPhase a (freshData a w₂ (tmpDir a :: w₂.fs))).1).filter isModelEvent
        simp [freshEvents, isModelEvent, List.filter_append]
  refine ⟨hmain.1, hmain.2, ?_⟩
  intro hv hfr
  rw [run_fresh a w₁ hv hfr]
  have hm1 : Event.saveNpyIds (idsFile a TST)
      (encodeSplit (buildItos w₁.toks.trn a.max_vocab) w₁.toks.tst)
      ∈ freshEvents a w₁ := by
    simp [freshEvents]
  simp only [List.mem_cons, List.mem_append]
  tauto

/-- Witness for C10: the two concrete worlds differing only in the test
split yield the same error status. -/
theorem test_split_no_influence_witness :
    (new_train_clas exArgs exWorldFresh).err = (new_train_clas exArgs exWorldFresh2).err :=
  (test_split_no_influence exArgs exWorldFresh exWorldFresh2
    rfl rfl rfl rfl rfl rfl rfl rfl rfl rfl).1

end UlmfitTrainClas
